import Mathlib

/-!
Verification of the embedding HTTP handler in src/cmd/embedding/embedding.py.

The handler wraps two pretrained embedding backends behind an
OpenAI-compatible endpoint.  The external collaborators are kept abstract:
base64 decoding is a parameter b64 returning an optional byte blob,
image opening is a parameter imopen returning an optional PILImage, and
the two backends are parameters embedT and embedI that assign one vector
to each submitted text or image, matching the contract that a backend
returns one vector per item in submission order.  Everything else is
translated from the Python source.  The models-loaded check that yields
a 503 before the body runs is outside the translated fragment, as no
claim concerns it.
-/

set_option autoImplicit false

namespace NomicEmbed

/-- Translation of the Python method str.startswith, at the character-list
level so that it evaluates by kernel reduction. -/
def strStartsWith (s pre : String) : Bool :=
  pre.data.isPrefixOf s.data

/-- Helper for the Python expression len(text.split()): counts maximal
nonempty runs of non-whitespace characters.  The flag records whether the
previous character was inside a word. -/
def countWordsAux : Bool → List Char → Nat
  | _, [] => 0
  | inWord, c :: cs =>
    if c.isWhitespace then countWordsAux false cs
    else (if inWord then 0 else 1) + countWordsAux true cs

/-- The word count len(text.split()) used by the token accounting: split on
whitespace runs, dropping empty pieces. -/
def wordCount (s : String) : Nat :=
  countWordsAux false s.data

/-- Tail after the first comma, or none when there is no comma.  This models
the Python expression base64_string.split with maxsplit 1 followed by
indexing at 1, which keeps every later comma in the tail and raises
IndexError when the string has no comma. -/
def splitOnceTail : List Char → Option (List Char)
  | [] => none
  | c :: cs => if c = ',' then some cs else splitOnceTail cs

/-- String-level wrapper for splitOnceTail. -/
def afterFirstComma (s : String) : Option String :=
  (splitOnceTail s.data).map fun cs => String.mk cs

/-- The prefixing step inside process_text_input, lines 139 to 143 of the
source: add the search_query marker with a trailing space unless one of the
two training markers, checked without a trailing space, is already
present. -/
def normalize (text : String) : String :=
  if !strStartsWith text "search_query:" && !strStartsWith text "search_document:" then
    "search_query: " ++ text
  else
    text

/-- A decoded raster image as the PIL library exposes it: pixel dimensions
and a mode string naming the channel layout ("RGB" is the three-channel
layout; "RGBA", "L" and "P" are other source layouts). -/
structure PILImage where
  width : Nat
  height : Nat
  mode : String
  deriving DecidableEq

/-- The PIL call convert applied with argument "RGB": the mode becomes
"RGB" and the pixel dimensions are unchanged. -/
def PILImage.convertRGB (img : PILImage) : PILImage :=
  { img with mode := "RGB" }

/-- The error taxonomy of the handler.  Every constructor corresponds to one
HTTPException raise site, except internalError which is the catch-all of the
outermost except clause. -/
inductive ApiError where
  | emptyInput
  | missingUrl
  | unsupportedImageUrl
  | unsupportedType (t : String)
  | invalidImage
  | internalError
  deriving DecidableEq

/-- The HTTP status code attached to each error in the source. -/
def ApiError.statusCode : ApiError → Nat
  | .emptyInput => 400
  | .missingUrl => 400
  | .unsupportedImageUrl => 400
  | .unsupportedType _ => 400
  | .invalidImage => 400
  | .internalError => 500

/-- The pydantic model EmbeddingInput: a tag, an optional text, and an
optional dictionary for the image reference, modelled as an association
list. -/
structure EmbeddingInput where
  type : String
  text : Option String := none
  image_url : Option (List (String × String)) := none
  deriving DecidableEq

/-- Lookup of the key "url" in the image_url dictionary. -/
def lookupUrl : List (String × String) → Option String
  | [] => none
  | kv :: rest => if kv.fst = "url" then some kv.snd else lookupUrl rest

/-- The Python check: item.image_url is truthy and contains the key "url".
An absent or empty dictionary yields none, as does a dictionary without the
key. -/
def urlOf (item : EmbeddingInput) : Option String :=
  match item.image_url with
  | none => none
  | some d => lookupUrl d

/-- A value reaching the prefixing loop of process_text_input.  In the
dynamically typed source this is whatever was appended to the texts list: a
string, the value None from an absent text field, or a whole input object
when first-element sniffing misroutes a list. -/
inductive PyTextVal where
  | str (s : String)
  | noneV
  | obj
  deriving DecidableEq

/-- An element of a request input list as the dynamically typed handler sees
it: a plain string or a typed input object. -/
inductive RawElem where
  | str (s : String)
  | obj (item : EmbeddingInput)
  deriving DecidableEq

/-- How an element of a list routed to the text path is seen by the
prefixing loop. -/
def RawElem.asTextVal : RawElem → PyTextVal
  | .str s => .str s
  | .obj _ => .obj

/-- The polymorphic input field: a single string or a list of elements. -/
inductive ReqInput where
  | str (s : String)
  | list (l : List RawElem)
  deriving DecidableEq

/-- The pydantic model EmbeddingRequest. -/
structure EmbeddingRequest where
  input : ReqInput
  model : String := "nomic-embed-vision-v1.5"
  encoding_format : String := "float"
  dimensions : Option Nat := none
  deriving DecidableEq

/-- One embedding of the response, over an abstract vector type V. -/
structure EmbeddingData (V : Type) where
  object : String := "embedding"
  embedding : V
  index : Nat
  deriving DecidableEq

/-- The usage record of the response. -/
structure Usage where
  prompt_tokens : Nat
  total_tokens : Nat
  deriving DecidableEq

/-- The response envelope. -/
structure EmbeddingResponse (V : Type) where
  object : String := "list"
  data : List (EmbeddingData V)
  model : String
  usage : Usage
  deriving DecidableEq

variable {V B : Type}

/-- The part of decode_base64_image after the data prefix handling: base64
decode the payload, open it as an image, convert to RGB.  A failure of
either external step is caught by the except clause of the source and
surfaced as the invalid-image client error. -/
def payloadDecode (b64 : String → Option B) (imopen : B → Option PILImage)
    (p : String) : Except ApiError PILImage :=
  match b64 p with
  | none => .error .invalidImage
  | some bytes =>
    match imopen bytes with
    | none => .error .invalidImage
    | some img => .ok img.convertRGB

/-- Translation of decode_base64_image, lines 121 to 132 of the source.
When the string starts with the data prefix, the payload is everything
after the first comma; the IndexError raised when no comma exists is caught
by the same except clause, so it also yields the invalid-image error. -/
def decode_base64_image (b64 : String → Option B) (imopen : B → Option PILImage)
    (s : String) : Except ApiError PILImage :=
  match (if strStartsWith s "data:" then afterFirstComma s else some s) with
  | none => .error .invalidImage
  | some p => payloadDecode b64 imopen p

/-- Translation of process_text_input, lines 134 to 160: the prefixing loop
followed by the batch call to the text backend, which returns one vector per
submitted text in submission order.  Calling startswith on the value None or
on an input object raises AttributeError, which the outermost except clause
of the handler reports as the internal error. -/
def process_text_input (embedT : String → V) : List PyTextVal → Except ApiError (List V)
  | [] => .ok []
  | .str t :: rest =>
    match process_text_input embedT rest with
    | .error e => .error e
    | .ok vs => .ok (embedT (normalize t) :: vs)
  | .noneV :: _ => .error .internalError
  | .obj :: _ => .error .internalError

/-- Translation of process_image_input, lines 162 to 178: one vector per
image, in submission order. -/
def process_image_input (embedI : PILImage → V) (images : List PILImage) : List V :=
  images.map embedI

/-- The classification loop of the typed-item branch, lines 239 to 268:
walk the input list in order, collecting the texts sub-batch, the decoded
images sub-batch and the running token count, and fail fast at the first
offending item.  A plain string element reached in this branch raises
AttributeError at the attribute access item.type, reported as the internal
error.  A text item contributes its word count, which is zero for an absent
or empty text by the truthiness test of the source; an image item
contributes one token. -/
def classifyItems (b64 : String → Option B) (imopen : B → Option PILImage) :
    List RawElem → Except ApiError (List PyTextVal × List PILImage × Nat)
  | [] => .ok ([], [], 0)
  | .str _ :: _ => .error .internalError
  | .obj item :: rest =>
    if item.type = "text" then
      match classifyItems b64 imopen rest with
      | .error e => .error e
      | .ok (ts, ims, tk) =>
        .ok ((match item.text with | some t => PyTextVal.str t | none => PyTextVal.noneV) :: ts,
             ims,
             (match item.text with | some t => wordCount t | none => 0) + tk)
    else if item.type = "image_url" then
      match urlOf item with
      | none => .error .missingUrl
      | some url =>
        if strStartsWith url "data:" then
          match decode_base64_image b64 imopen url with
          | .error e => .error e
          | .ok img =>
            match classifyItems b64 imopen rest with
            | .error e => .error e
            | .ok (ts, ims, tk) => .ok (ts, img :: ims, 1 + tk)
        else .error .unsupportedImageUrl
    else .error (.unsupportedType item.type)

/-- The token sum of the string-list branch, line 231: the sum of the word
counts of the elements.  Calling split on an input object raises TypeError
inside the generator, reported as the internal error; in the source this
line runs only after process_text_input already failed on such an
element. -/
def sumSplitTokens : List RawElem → Except ApiError Nat
  | [] => .ok 0
  | .str s :: rest =>
    match sumSplitTokens rest with
    | .error e => .error e
    | .ok n => .ok (wordCount s + n)
  | .obj _ :: _ => .error .internalError

/-- The enumerate call of the response assembly, lines 287 to 293: pair each
vector with its position in the combined list. -/
def enumData : Nat → List V → List (EmbeddingData V)
  | _, [] => []
  | i, v :: vs => { embedding := v, index := i } :: enumData (i + 1) vs

/-- The response envelope construction, lines 286 to 302: enumerated data
and a usage record with prompt_tokens and total_tokens both set to the
accumulated count. -/
def mkResponse (model : String) (embs : List V) (tk : Nat) : EmbeddingResponse V :=
  { object := "list"
    data := enumData 0 embs
    model := model
    usage := { prompt_tokens := tk, total_tokens := tk } }

/-- Translation of the body of create_embeddings, lines 211 to 302.
A single string is embedded as a one-element text batch.  An empty list
fails with the empty-input error.  A list whose first element is a string is
routed whole to the text path; only afterwards is the token sum taken over
the same list.  Otherwise the typed-item loop classifies the list, the text
sub-batch and then the image sub-batch are embedded, and the two vector
batches are concatenated texts first before enumeration. -/
def create_embeddings (embedT : String → V) (embedI : PILImage → V)
    (b64 : String → Option B) (imopen : B → Option PILImage)
    (req : EmbeddingRequest) : Except ApiError (EmbeddingResponse V) :=
  match req.input with
  | .str s =>
    match process_text_input embedT [PyTextVal.str s] with
    | .error e => .error e
    | .ok embs => .ok (mkResponse req.model embs (wordCount s))
  | .list l =>
    match l with
    | [] => .error .emptyInput
    | .str _ :: _ =>
      match process_text_input embedT (l.map RawElem.asTextVal) with
      | .error e => .error e
      | .ok embs =>
        match sumSplitTokens l with
        | .error e => .error e
        | .ok tk => .ok (mkResponse req.model embs tk)
    | .obj _ :: _ =>
      match classifyItems b64 imopen l with
      | .error e => .error e
      | .ok (ts, ims, tk) =>
        match process_text_input embedT ts with
        | .error e => .error e
        | .ok tvecs =>
          .ok (mkResponse req.model (tvecs ++ process_image_input embedI ims) tk)

/-- Token contribution of one input element as the spec describes it: the
word count of a raw text, and a flat one per image item. -/
def elemTokens : RawElem → Nat
  | .str s => wordCount s
  | .obj it =>
    if it.type = "text" then
      match it.text with
      | some t => wordCount t
      | none => 0
    else 1

/-- The token count of a request as the spec describes it: the word-count
sum over raw text strings plus a flat one per image item.  This definition
follows the words of the spec and is compared against the usage record the
translated code produces. -/
def specTokenCount : ReqInput → Nat
  | .str s => wordCount s
  | .list l => (l.map elemTokens).sum

/-- A typed item the spec calls unsupported: a kind other than text and
image_url, an image item without a url field, or an image item whose url is
not a data url. -/
def offendingItem (it : EmbeddingInput) : Prop :=
  (it.type ≠ "text" ∧ it.type ≠ "image_url") ∨
  (it.type = "image_url" ∧
    (urlOf it = none ∨ ∃ u, urlOf it = some u ∧ strStartsWith u "data:" = false))


/-- An error of the unsupported-input family: unsupported kind, missing url
field, or an image reference that is not a data url. -/
def ApiError.isUnsupportedClass (e : ApiError) : Prop :=
  e = .missingUrl ∨ e = .unsupportedImageUrl ∨ ∃ t, e = .unsupportedType t

/-- Concrete instantiations used to evaluate the translated handler on
closed inputs: a base64 decoder that accepts exactly one blob, a decoder
that accepts everything, an image opener returning a fixed four-channel
source image, and trivial backends. -/
def b64w : String → Option Nat := fun s => if s = "QQ==" then some 0 else none

/-- An image opener returning a fixed 2 by 3 four-channel image. -/
def imopenw : Nat → Option PILImage := fun _ => some { width := 2, height := 3, mode := "RGBA" }

/-- A base64 decoder that accepts every payload. -/
def b64ok : String → Option Nat := fun _ => some 0

/-- A trivial text backend over the unit vector type. -/
def embTu : String → Unit := fun _ => ()

/-- A trivial image backend over the unit vector type. -/
def embIu : PILImage → Unit := fun _ => ()

/-- A concrete image item holding a data url. -/
def imgItemA : EmbeddingInput :=
  { type := "image_url", image_url := some [("url", "data:image/png;base64,AAAA")] }

/-- A concrete text item. -/
def txtItemA : EmbeddingInput := { type := "text", text := some "a" }

theorem enumData_length (i : Nat) (l : List V) : (enumData i l).length = l.length := by
  induction l generalizing i with
  | nil => rfl
  | cons v vs ih => simp [enumData, ih]

theorem enumData_map_embedding (i : Nat) (l : List V) :
    (enumData i l).map (fun d => d.embedding) = l := by
  induction l generalizing i with
  | nil => rfl
  | cons v vs ih => simp [enumData, ih]

theorem enumData_map_index (i : Nat) (l : List V) :
    (enumData i l).map (fun d => d.index) = List.range' i l.length := by
  induction l generalizing i with
  | nil => rfl
  | cons v vs ih => simp [enumData, List.range', ih]

theorem process_text_input_all_str (embedT : String → V) (ts : List String) :
    process_text_input embedT (ts.map PyTextVal.str) =
      .ok (ts.map fun t => embedT (normalize t)) := by
  induction ts with
  | nil => rfl
  | cons t rest ih => simp [process_text_input, ih]

theorem process_text_input_err (embedT : String → V) (vals : List PyTextVal)
    (h : PyTextVal.noneV ∈ vals ∨ PyTextVal.obj ∈ vals) :
    process_text_input embedT vals = .error .internalError := by
  induction vals with
  | nil => rcases h with h | h <;> simp at h
  | cons v rest ih =>
    cases v with
    | str t =>
      have h' : PyTextVal.noneV ∈ rest ∨ PyTextVal.obj ∈ rest := by
        rcases h with h | h
        · exact Or.inl (by simpa using h)
        · exact Or.inr (by simpa using h)
      simp [process_text_input, ih h']
    | noneV => rfl
    | obj => rfl

theorem sumSplitTokens_ok (l : List RawElem) (n : Nat) (h : sumSplitTokens l = .ok n) :
    n = (l.map elemTokens).sum := by
  induction l generalizing n with
  | nil =>
    simp [sumSplitTokens] at h
    simp [h]
  | cons e rest ih =>
    cases e with
    | str s =>
      simp only [sumSplitTokens] at h
      split at h
      · exact absurd h (by simp)
      · rename_i m heq
        simp only [Except.ok.injEq] at h
        subst h
        simp [elemTokens, ih m heq]
    | obj it => exact absurd h (by simp [sumSplitTokens])

theorem sumSplitTokens_all_str (ss : List String) :
    sumSplitTokens (ss.map RawElem.str) = .ok ((ss.map wordCount).sum) := by
  induction ss with
  | nil => rfl
  | cons s rest ih => simp [sumSplitTokens, ih]

theorem classifyItems_tokens (b64 : String → Option B) (imopen : B → Option PILImage)
    (l : List RawElem) (ts : List PyTextVal) (ims : List PILImage) (tk : Nat)
    (h : classifyItems b64 imopen l = .ok (ts, ims, tk)) :
    tk = (l.map elemTokens).sum := by
  induction l generalizing ts ims tk with
  | nil =>
    simp [classifyItems] at h
    simp [h]
  | cons e rest ih =>
    cases e with
    | str s => simp [classifyItems] at h
    | obj item =>
      simp only [classifyItems] at h
      split at h
      · rename_i htxt
        split at h
        · exact absurd h (by simp)
        · rename_i ts' ims' tk' heq
          simp only [Except.ok.injEq, Prod.mk.injEq] at h
          obtain ⟨hts, hims, htk⟩ := h
          subst htk
          simp [elemTokens, htxt, ih ts' ims' tk' heq]
      · rename_i htxt
        split at h
        · rename_i himg
          split at h
          · exact absurd h (by simp)
          · rename_i url hurl
            split at h
            · split at h
              · exact absurd h (by simp)
              · rename_i img hdec
                split at h
                · exact absurd h (by simp)
                · rename_i ts' ims' tk' heq
                  simp only [Except.ok.injEq, Prod.mk.injEq] at h
                  obtain ⟨hts, hims, htk⟩ := h
                  subst htk
                  simp [elemTokens, htxt, himg, ih ts' ims' tk' heq]
            · exact absurd h (by simp)
        · exact absurd h (by simp)

theorem classifyItems_noneV (b64 : String → Option B) (imopen : B → Option PILImage)
    (l : List RawElem) (ts : List PyTextVal) (ims : List PILImage) (tk : Nat)
    (iu : Option (List (String × String)))
    (h : classifyItems b64 imopen l = .ok (ts, ims, tk))
    (hmem : RawElem.obj { type := "text", text := none, image_url := iu } ∈ l) :
    PyTextVal.noneV ∈ ts := by
  induction l generalizing ts ims tk with
  | nil => simp at hmem
  | cons e rest ih =>
    cases e with
    | str s => simp [classifyItems] at h
    | obj item =>
      simp only [classifyItems] at h
      split at h
      · rename_i htxt
        split at h
        · exact absurd h (by simp)
        · rename_i ts' ims' tk' heq
          simp only [Except.ok.injEq, Prod.mk.injEq] at h
          obtain ⟨hts, hims, htk⟩ := h
          rcases List.mem_cons.mp hmem with hhead | htail
          · cases hhead
            subst hts
            simp
          · subst hts
            exact List.mem_cons_of_mem _ (ih ts' ims' tk' heq htail)
      · rename_i htxt
        split at h
        · rename_i himg
          split at h
          · exact absurd h (by simp)
          · rename_i url hurl
            split at h
            · split at h
              · exact absurd h (by simp)
              · rename_i img hdec
                split at h
                · exact absurd h (by simp)
                · rename_i ts' ims' tk' heq
                  simp only [Except.ok.injEq, Prod.mk.injEq] at h
                  obtain ⟨hts, hims, htk⟩ := h
                  rcases List.mem_cons.mp hmem with hhead | htail
                  · exfalso
                    cases hhead
                    exact htxt rfl
                  · subst hts
                    exact ih ts' ims' tk' heq htail
            · exact absurd h (by simp)
        · exact absurd h (by simp)

theorem splitOnceTail_append (l1 l2 : List Char) (h : ∀ c ∈ l1, c ≠ ',') :
    splitOnceTail (l1 ++ ',' :: l2) = some l2 := by
  induction l1 with
  | nil => simp [splitOnceTail]
  | cons c cs ih =>
    have hc : c ≠ ',' := h c (List.mem_cons_self c cs)
    simp only [List.cons_append, splitOnceTail, if_neg hc]
    exact ih fun x hx => h x (List.mem_cons_of_mem c hx)

theorem splitOnceTail_none (l : List Char) (h : ∀ c ∈ l, c ≠ ',') :
    splitOnceTail l = none := by
  induction l with
  | nil => rfl
  | cons c cs ih =>
    have hc : c ≠ ',' := h c (List.mem_cons_self c cs)
    simp only [splitOnceTail, if_neg hc]
    exact ih fun x hx => h x (List.mem_cons_of_mem c hx)

theorem decode_base64_image_err (b64 : String → Option B) (imopen : B → Option PILImage)
    (s : String) (e : ApiError) (h : decode_base64_image b64 imopen s = .error e) :
    e = .invalidImage := by
  simp only [decode_base64_image] at h
  split at h
  · exact (Except.error.injEq _ _).mp h.symm |>.symm ▸ rfl
  · rename_i p hp
    simp only [payloadDecode] at h
    split at h
    · exact ((Except.error.injEq _ _).mp h).symm
    · rename_i bs hbs
      split at h
      · exact ((Except.error.injEq _ _).mp h).symm
      · exact absurd h (by simp)

theorem create_single_eq (embedT : String → V) (embedI : PILImage → V)
    (b64 : String → Option B) (imopen : B → Option PILImage)
    (s model ef : String) (dim : Option Nat) :
    create_embeddings embedT embedI b64 imopen ⟨.str s, model, ef, dim⟩ =
      match process_text_input embedT [PyTextVal.str s] with
      | .error e => .error e
      | .ok embs => .ok (mkResponse model embs (wordCount s)) := rfl

theorem create_empty_eq (embedT : String → V) (embedI : PILImage → V)
    (b64 : String → Option B) (imopen : B → Option PILImage)
    (model ef : String) (dim : Option Nat) :
    create_embeddings embedT embedI b64 imopen ⟨.list [], model, ef, dim⟩ =
      .error .emptyInput := rfl

theorem create_sniffed_eq (embedT : String → V) (embedI : PILImage → V)
    (b64 : String → Option B) (imopen : B → Option PILImage)
    (s : String) (rest : List RawElem) (model ef : String) (dim : Option Nat) :
    create_embeddings embedT embedI b64 imopen ⟨.list (.str s :: rest), model, ef, dim⟩ =
      match process_text_input embedT ((RawElem.str s :: rest).map RawElem.asTextVal) with
      | .error e => .error e
      | .ok embs =>
        match sumSplitTokens (RawElem.str s :: rest) with
        | .error e => .error e
        | .ok tk => .ok (mkResponse model embs tk) := rfl

theorem create_typed_eq (embedT : String → V) (embedI : PILImage → V)
    (b64 : String → Option B) (imopen : B → Option PILImage)
    (it : EmbeddingInput) (rest : List RawElem) (model ef : String) (dim : Option Nat) :
    create_embeddings embedT embedI b64 imopen ⟨.list (.obj it :: rest), model, ef, dim⟩ =
      match classifyItems b64 imopen (RawElem.obj it :: rest) with
      | .error e => .error e
      | .ok (ts, ims, tk) =>
        match process_text_input embedT ts with
        | .error e => .error e
        | .ok tvecs => .ok (mkResponse model (tvecs ++ process_image_input embedI ims) tk) := rfl

theorem offendingItem_not_text (it : EmbeddingInput) (h : offendingItem it) :
    it.type ≠ "text" := by
  rcases h with ⟨h1, _⟩ | ⟨h1, _⟩
  · exact h1
  · rw [h1]
    decide

theorem classifyItems_offending (b64 : String → Option B) (imopen : B → Option PILImage)
    (items : List EmbeddingInput) (h : ∃ it ∈ items, offendingItem it) :
    ∃ e, e.statusCode = 400 ∧
      classifyItems b64 imopen (items.map RawElem.obj) = .error e := by
  induction items with
  | nil => simp at h
  | cons it rest ih =>
    obtain ⟨it0, hmem, hoff⟩ := h
    by_cases htxt : it.type = "text"
    · have hrest : ∃ x ∈ rest, offendingItem x := by
        rcases List.mem_cons.mp hmem with hhead | htail
        · exact absurd htxt (hhead ▸ offendingItem_not_text it0 hoff)
        · exact ⟨it0, htail, hoff⟩
      obtain ⟨e, h400, herr⟩ := ih hrest
      exact ⟨e, h400, by simp [classifyItems, htxt, herr]⟩
    · by_cases himg : it.type = "image_url"
      · cases hurl : urlOf it with
        | none =>
          exact ⟨.missingUrl, rfl, by simp [classifyItems, htxt, himg, hurl]⟩
        | some url =>
          by_cases hdata : strStartsWith url "data:" = true
          · have hrest : ∃ x ∈ rest, offendingItem x := by
              rcases List.mem_cons.mp hmem with hhead | htail
              · subst hhead
                rcases hoff with ⟨h1, h2⟩ | ⟨h1, h2⟩
                · exact absurd himg h2
                · rcases h2 with h2 | ⟨u, hu, hu2⟩
                  · rw [hurl] at h2; cases h2
                  · rw [hurl] at hu
                    injection hu with hu
                    subst hu
                    rw [hdata] at hu2
                    cases hu2
              · exact ⟨it0, htail, hoff⟩
            cases hdec : decode_base64_image b64 imopen url with
            | error e =>
              have he : e = .invalidImage := decode_base64_image_err b64 imopen url e hdec
              subst he
              exact ⟨.invalidImage, rfl, by simp [classifyItems, htxt, himg, hurl, hdata, hdec]⟩
            | ok img =>
              obtain ⟨e, h400, herr⟩ := ih hrest
              exact ⟨e, h400, by simp [classifyItems, htxt, himg, hurl, hdata, hdec, herr]⟩
          · exact ⟨.unsupportedImageUrl, rfl,
              by simp [classifyItems, htxt, himg, hurl, hdata]⟩
      · exact ⟨.unsupportedType it.type, rfl, by simp [classifyItems, htxt, himg]⟩

theorem classifyItems_err_class (b64 : String → Option B) (imopen : B → Option PILImage)
    (items : List EmbeddingInput) (e : ApiError)
    (hgood : ∀ it ∈ items, ∀ u, urlOf it = some u → strStartsWith u "data:" = true →
      ∃ img, decode_base64_image b64 imopen u = .ok img)
    (h : classifyItems b64 imopen (items.map RawElem.obj) = .error e) :
    e.isUnsupportedClass := by
  induction items with
  | nil => simp [classifyItems] at h
  | cons it rest ih =>
    have hgoodr : ∀ it2 ∈ rest, ∀ u, urlOf it2 = some u → strStartsWith u "data:" = true →
        ∃ img, decode_base64_image b64 imopen u = .ok img :=
      fun it2 hit2 => hgood it2 (List.mem_cons_of_mem it hit2)
    simp only [List.map_cons, classifyItems] at h
    split at h
    · rename_i htxt
      split at h
      · rename_i e' heq
        injection h with h
        subst h
        exact ih hgoodr heq
      · exact absurd h (by simp)
    · rename_i htxt
      split at h
      · rename_i himg
        split at h
        · injection h with h
          subst h
          exact Or.inl rfl
        · rename_i url hurl
          split at h
          · rename_i hdata
            split at h
            · rename_i e' hdec
              obtain ⟨img, hok⟩ := hgood it (List.mem_cons_self it rest) url hurl hdata
              rw [hok] at hdec
              cases hdec
            · rename_i img hdec
              split at h
              · rename_i e' heq
                injection h with h
                subst h
                exact ih hgoodr heq
              · exact absurd h (by simp)
          · injection h with h
            subst h
            exact Or.inr (Or.inl rfl)
      · injection h with h
        subst h
        exact Or.inr (Or.inr ⟨it.type, rfl⟩)

/-- C9: a request whose input is a list with zero elements fails with the
empty-input error, which carries status 400, for every choice of backend
behaviour, so no embedding-backend call can influence or be required for
the outcome. -/
theorem C9_empty_list_emptyinput :
    ∀ (V B : Type) (embedT : String → V) (embedI : PILImage → V)
      (b64 : String → Option B) (imopen : B → Option PILImage)
      (model ef : String) (dim : Option Nat),
    create_embeddings embedT embedI b64 imopen ⟨.list [], model, ef, dim⟩ =
        .error .emptyInput ∧
      ApiError.statusCode .emptyInput = 400 := by
  intro V B embedT embedI b64 imopen model ef dim
  exact ⟨rfl, rfl⟩

/-- C7: normalize prepends the search_query marker with a trailing space
exactly when the text does not already start with one of the two markers
checked without a trailing space, returns the text unchanged otherwise, and
the three examples of the spec evaluate as stated. -/
theorem C7_normalize_prefixing :
    ∀ t : String,
    (normalize t = "search_query: " ++ t ↔
      (strStartsWith t "search_query:" = false ∧
       strStartsWith t "search_document:" = false))
    ∧ ((strStartsWith t "search_query:" = true ∨
        strStartsWith t "search_document:" = true) → normalize t = t)
    ∧ normalize "hello" = "search_query: hello"
    ∧ normalize "search_document: x" = "search_document: x"
    ∧ normalize "search_query: x" = "search_query: x" := by
  intro t
  have hlen : ∀ u : String, u = "search_query: " ++ u → False := by
    intro u hu
    have h1 : u.length = ("search_query: " ++ u).length := by rw [← hu]
    rw [String.length_append] at h1
    have h2 : ("search_query: " : String).length = 14 := by decide
    omega
  refine ⟨?_, ?_, by decide, by decide, by decide⟩
  · by_cases h1 : strStartsWith t "search_query:" = true
    · have hnt : normalize t = t := by simp [normalize, h1]
      constructor
      · intro heq
        rw [hnt] at heq
        exact absurd heq (fun hc => hlen t hc)
      · rintro ⟨ha, _⟩
        rw [h1] at ha
        cases ha
    · by_cases h2 : strStartsWith t "search_document:" = true
      · have hnt : normalize t = t := by simp [normalize, h2]
        constructor
        · intro heq
          rw [hnt] at heq
          exact absurd heq (fun hc => hlen t hc)
        · rintro ⟨_, hb⟩
          rw [h2] at hb
          cases hb
      · have h1' : strStartsWith t "search_query:" = false := by
          simpa using h1
        have h2' : strStartsWith t "search_document:" = false := by
          simpa using h2
        have hnt : normalize t = "search_query: " ++ t := by
          simp [normalize, h1', h2']
        exact ⟨fun _ => ⟨h1', h2'⟩, fun _ => hnt⟩
  · intro h
    rcases h with h | h <;> simp [normalize, h]

/-- Witness for C7 at concrete inputs, discharging the prefixed-branch
hypothesis and the two sides of the iff. -/
theorem C7_normalize_prefixing_witness :
    normalize "search_query: x" = "search_query: x" ∧
    normalize "hello" = "search_query: " ++ "hello" :=
  ⟨(C7_normalize_prefixing "search_query: x").2.1 (Or.inl (by decide)),
   ((C7_normalize_prefixing "hello").1).mpr ⟨by decide, by decide⟩⟩

/-- C10: a string that starts with the data prefix but contains no comma
makes decode_base64_image fail with the invalid-image client error carrying
status 400, because the IndexError of the prefix split is caught inside the
same error handler, rather than escaping as an internal error. -/
theorem C10_data_url_without_comma :
    ∀ (B' : Type) (b64 : String → Option B') (imopen : B' → Option PILImage)
      (s : String),
    strStartsWith s "data:" = true → (∀ c ∈ s.data, c ≠ ',') →
    decode_base64_image b64 imopen s = .error .invalidImage ∧
      ApiError.statusCode .invalidImage = 400 := by
  intro B' b64 imopen s hd hnc
  refine ⟨?_, rfl⟩
  have hafc : afterFirstComma s = none := by
    simp [afterFirstComma, splitOnceTail_none s.data hnc]
  simp [decode_base64_image, hd, hafc]

/-- Witness for C10 at a concrete comma-free data url. -/
theorem C10_data_url_without_comma_witness :
    decode_base64_image b64w imopenw "data:QUFB" = .error .invalidImage ∧
      ApiError.statusCode .invalidImage = 400 :=
  C10_data_url_without_comma Nat b64w imopenw "data:QUFB" (by decide) (by decide)

/-- C6: every failure of decode_base64_image is the invalid-image client
error with status 400; a data-prefixed string is decoded from the payload
after the first comma only, so later commas stay in the payload; a string
without the data prefix is decoded whole; the payload decode fails exactly
when base64 decoding fails or the bytes do not open as an image; and on
success the result is the RGB three-channel conversion of the opened image
with its pixel dimensions unchanged. -/
theorem C6_decode_base64_image_spec :
    ∀ (B' : Type) (b64 : String → Option B') (imopen : B' → Option PILImage),
    (∀ s e, decode_base64_image b64 imopen s = .error e →
      e = .invalidImage ∧ e.statusCode = 400)
    ∧ (∀ pre p : String, (∀ c ∈ pre.data, c ≠ ',') →
        decode_base64_image b64 imopen ("data:" ++ pre ++ "," ++ p) =
          payloadDecode b64 imopen p)
    ∧ (∀ s : String, strStartsWith s "data:" = false →
        decode_base64_image b64 imopen s = payloadDecode b64 imopen s)
    ∧ (∀ p : String,
        (∃ e, payloadDecode b64 imopen p = .error e) ↔
          (b64 p = none ∨ ∃ bs, b64 p = some bs ∧ imopen bs = none))
    ∧ (∀ p img, payloadDecode b64 imopen p = .ok img →
        ∃ bs src, b64 p = some bs ∧ imopen bs = some src ∧
          img.mode = "RGB" ∧ img.width = src.width ∧ img.height = src.height) := by
  intro B' b64 imopen
  refine ⟨?_, ?_, ?_, ?_, ?_⟩
  · intro s e h
    have he := decode_base64_image_err b64 imopen s e h
    subst he
    exact ⟨rfl, rfl⟩
  · intro pre p hpre
    have hsdata : ("data:" ++ pre ++ "," ++ p).data =
        ("data:".data ++ pre.data) ++ (',' :: p.data) := by
      simp [String.data_append]
    have hstart : strStartsWith ("data:" ++ pre ++ "," ++ p) "data:" = true := by
      simp only [strStartsWith, hsdata]
      rw [List.isPrefixOf_iff_prefix]
      rw [List.append_assoc]
      exact List.prefix_append _ _
    have hnc : ∀ c ∈ ("data:".data ++ pre.data), c ≠ ',' := by
      intro c hc
      rcases List.mem_append.mp hc with hc | hc
      · have hdc : ∀ x ∈ "data:".data, x ≠ ',' := by decide
        exact hdc c hc
      · exact hpre c hc
    have hafc : afterFirstComma ("data:" ++ pre ++ "," ++ p) = some p := by
      unfold afterFirstComma
      rw [hsdata, splitOnceTail_append _ _ hnc]
      rfl
    simp [decode_base64_image, hstart, hafc]
  · intro s hs
    simp [decode_base64_image, hs]
  · intro p
    constructor
    · rintro ⟨e, he⟩
      simp only [payloadDecode] at he
      split at he
      · rename_i hb
        exact Or.inl hb
      · rename_i bs hbs
        split at he
        · rename_i him
          exact Or.inr ⟨bs, hbs, him⟩
        · exact absurd he (by simp)
    · rintro (hb | ⟨bs, hbs, him⟩)
      · exact ⟨.invalidImage, by simp [payloadDecode, hb]⟩
      · exact ⟨.invalidImage, by simp [payloadDecode, hbs, him]⟩
  · intro p img h
    simp only [payloadDecode] at h
    split at h
    · exact absurd h (by simp)
    · rename_i bs hbs
      split at h
      · exact absurd h (by simp)
      · rename_i src hsrc
        injection h with h
        subst h
        exact ⟨bs, src, hbs, hsrc, rfl, rfl, rfl⟩

/-- Witness for C6: a concrete data url decodes through its comma-free
prefix, and a successful payload decode yields the RGB conversion of the
concrete opened image. -/
theorem C6_decode_base64_image_spec_witness :
    decode_base64_image b64w imopenw ("data:" ++ "image;base64" ++ "," ++ "QQ==") =
        payloadDecode b64w imopenw "QQ==" ∧
    (∃ bs src, b64w "QQ==" = some bs ∧ imopenw bs = some src ∧
      ({ width := 2, height := 3, mode := "RGB" } : PILImage).mode = "RGB" ∧
      ({ width := 2, height := 3, mode := "RGB" } : PILImage).width = src.width ∧
      ({ width := 2, height := 3, mode := "RGB" } : PILImage).height = src.height) :=
  ⟨(C6_decode_base64_image_spec Nat b64w imopenw).2.1 "image;base64" "QQ==" (by decide),
   (C6_decode_base64_image_spec Nat b64w imopenw).2.2.2.2 "QQ=="
     { width := 2, height := 3, mode := "RGB" } rfl⟩

/-- C1: evaluation of the translated handler at the failing input for the
ordering claim.  The input interleaves the items as image first, text
second; the text backend always answers false and the image backend always
answers true.  The response pairs index 0 with the text vector false and
index 1 with the image vector true, so the index of each embedding follows
the texts-first concatenation order and not the original input order, in
which the image came first.  This contradicts the combine-in-original-order
comment the source itself carries at the concatenation site. -/
theorem C1_interleaved_index_follows_batch_order :
    create_embeddings (fun _ => false) (fun _ => true) b64ok imopenw
        { input := .list [.obj imgItemA, .obj txtItemA] } =
      .ok { object := "list"
            data := [{ object := "embedding", embedding := false, index := 0 },
                     { object := "embedding", embedding := true, index := 1 }]
            model := "nomic-embed-vision-v1.5"
            usage := { prompt_tokens := 2, total_tokens := 2 } } := by
  rfl

/-- C3 counterexample: a typed text item whose text field is absent does
not succeed; the translated handler reports the internal error, carrying
status 500, because the prefixing loop calls startswith on the value
None. -/
theorem C3_absent_text_is_error :
    create_embeddings embTu embIu b64ok imopenw
        { input := .list [.obj { type := "text" }] } = .error .internalError ∧
      ApiError.statusCode .internalError = 500 :=
  ⟨rfl, rfl⟩

/-- C3 amended: a typed text item with an empty text succeeds, contributes
zero tokens, and is embedded as the prefixed empty string; a typed text
item with an absent text never yields a response, since every input list
containing one fails with some error. -/
theorem C3_empty_text_ok_absent_text_errors :
    ∀ (V B : Type) (embedT : String → V) (embedI : PILImage → V)
      (b64 : String → Option B) (imopen : B → Option PILImage)
      (model ef : String) (dim : Option Nat)
      (l : List RawElem) (iu : Option (List (String × String))),
    (create_embeddings embedT embedI b64 imopen
        ⟨.list [.obj { type := "text", text := some "" }], model, ef, dim⟩ =
      .ok { object := "list"
            data := [{ object := "embedding", embedding := embedT "search_query: ", index := 0 }]
            model := model
            usage := { prompt_tokens := 0, total_tokens := 0 } })
    ∧ (RawElem.obj { type := "text", text := none, image_url := iu } ∈ l →
        ∃ e, create_embeddings embedT embedI b64 imopen
          ⟨.list l, model, ef, dim⟩ = .error e) := by
  intro V B embedT embedI b64 imopen model ef dim l iu
  constructor
  · rfl
  · intro hmem
    cases l with
    | nil => simp at hmem
    | cons e0 rest =>
      cases e0 with
      | str s =>
        refine ⟨.internalError, ?_⟩
        rw [create_sniffed_eq]
        have hobj : PyTextVal.obj ∈ (RawElem.str s :: rest).map RawElem.asTextVal := by
          have := List.mem_map_of_mem RawElem.asTextVal hmem
          simpa [RawElem.asTextVal] using this
        rw [process_text_input_err embedT _ (Or.inr hobj)]
      | obj it =>
        rw [create_typed_eq]
        cases hcl : classifyItems b64 imopen (RawElem.obj it :: rest) with
        | error e => exact ⟨e, rfl⟩
        | ok trip =>
          obtain ⟨ts, ims, tk⟩ := trip
          have hn : PyTextVal.noneV ∈ ts :=
            classifyItems_noneV b64 imopen _ ts ims tk iu hcl hmem
          refine ⟨.internalError, ?_⟩
          show (match process_text_input embedT ts with
            | Except.error e => Except.error e
            | Except.ok tvecs =>
              Except.ok (mkResponse model (tvecs ++ process_image_input embedI ims) tk)) =
            Except.error ApiError.internalError
          rw [process_text_input_err embedT ts (Or.inl hn)]

/-- Witness for C3 amended: the empty-text item succeeds as the prefixed
empty string with zero tokens, and the concrete singleton list with an
absent text fails. -/
theorem C3_empty_text_ok_absent_text_errors_witness :
    (create_embeddings embTu embIu b64ok imopenw
        ⟨.list [.obj { type := "text", text := some "" }], "m", "float", none⟩ =
      .ok { object := "list"
            data := [{ object := "embedding", embedding := embTu "search_query: ", index := 0 }]
            model := "m"
            usage := { prompt_tokens := 0, total_tokens := 0 } })
    ∧ (∃ e, create_embeddings embTu embIu b64ok imopenw
        ⟨.list [.obj { type := "text", text := none, image_url := none }], "m", "float", none⟩ =
          .error e) :=
  ⟨(C3_empty_text_ok_absent_text_errors Unit Nat embTu embIu b64ok imopenw "m" "float" none
      [.obj { type := "text", text := none, image_url := none }] none).1,
   (C3_empty_text_ok_absent_text_errors Unit Nat embTu embIu b64ok imopenw "m" "float" none
      [.obj { type := "text", text := none, image_url := none }] none).2
     (List.Mem.head _)⟩

/-- C4: for every successful request the usage record sets prompt_tokens
equal to total_tokens, and their common value is the word-count sum over
the raw texts plus one per image item, as specTokenCount states; moreover a
single string request for the text consisting of the two words hello and
world always succeeds with prompt_tokens equal to 2. -/
theorem C4_usage_prompt_eq_total_eq_wordcount :
    (∀ (V B : Type) (embedT : String → V) (embedI : PILImage → V)
        (b64 : String → Option B) (imopen : B → Option PILImage)
        (req : EmbeddingRequest) (resp : EmbeddingResponse V),
      create_embeddings embedT embedI b64 imopen req = .ok resp →
        resp.usage.prompt_tokens = resp.usage.total_tokens ∧
        resp.usage.total_tokens = specTokenCount req.input)
    ∧ (∀ (V B : Type) (embedT : String → V) (embedI : PILImage → V)
        (b64 : String → Option B) (imopen : B → Option PILImage)
        (model ef : String) (dim : Option Nat),
      ∃ resp, create_embeddings embedT embedI b64 imopen
          ⟨.str "hello world", model, ef, dim⟩ = .ok resp ∧
        resp.usage.prompt_tokens = 2) := by
  constructor
  · intro V B embedT embedI b64 imopen req resp h
    obtain ⟨input, model, ef, dim⟩ := req
    cases input with
    | str s =>
      have h2 : Except.ok (mkResponse model [embedT (normalize s)] (wordCount s)) =
          Except.ok resp := h
      injection h2 with h2
      subst h2
      exact ⟨rfl, rfl⟩
    | list l =>
      cases l with
      | nil =>
        rw [create_empty_eq] at h
        exact Except.noConfusion h
      | cons e0 rest =>
        cases e0 with
        | str s0 =>
          rw [create_sniffed_eq] at h
          split at h
          · exact Except.noConfusion h
          · rename_i embs hembs
            split at h
            · exact Except.noConfusion h
            · rename_i tk htk
              injection h with h
              subst h
              exact ⟨rfl, sumSplitTokens_ok _ tk htk⟩
        | obj it =>
          rw [create_typed_eq] at h
          split at h
          · exact Except.noConfusion h
          · rename_i ts ims tk hcl
            split at h
            · exact Except.noConfusion h
            · rename_i tvecs htv
              injection h with h
              subst h
              exact ⟨rfl, classifyItems_tokens b64 imopen _ ts ims tk hcl⟩
  · intro V B embedT embedI b64 imopen model ef dim
    refine ⟨mkResponse model [embedT (normalize "hello world")] (wordCount "hello world"),
      rfl, ?_⟩
    show wordCount "hello world" = 2
    decide

/-- Witness for C4 applying the usage equations at a concrete successful
request. -/
theorem C4_usage_prompt_eq_total_eq_wordcount_witness :
    (mkResponse "m" [()] 1 : EmbeddingResponse Unit).usage.prompt_tokens =
        (mkResponse "m" [()] 1 : EmbeddingResponse Unit).usage.total_tokens ∧
    (mkResponse "m" [()] 1 : EmbeddingResponse Unit).usage.total_tokens =
        specTokenCount (.str "hi") :=
  C4_usage_prompt_eq_total_eq_wordcount.1 Unit Nat embTu embIu b64ok imopenw
    ⟨.str "hi", "m", "float", none⟩ (mkResponse "m" [()] 1) rfl

/-- C5: a typed-item request containing an unsupported item fails with an
error of status 400; the error is the same for every choice of the two
embedding backends, so no backend call is needed or consulted; and whenever
every data url actually carried by the items of the request decodes
successfully, the error is of the unsupported-input family: unsupported
kind, missing url field, or a non data url image reference. -/
theorem C5_unsupported_item_fails_400 :
    ∀ (V B : Type) (b64 : String → Option B) (imopen : B → Option PILImage)
      (items : List EmbeddingInput) (model ef : String) (dim : Option Nat),
    (∃ it ∈ items, offendingItem it) →
    ∃ e, e.statusCode = 400 ∧
      (∀ (embedT : String → V) (embedI : PILImage → V),
        create_embeddings embedT embedI b64 imopen
          ⟨.list (items.map RawElem.obj), model, ef, dim⟩ = .error e) ∧
      ((∀ it ∈ items, ∀ u, urlOf it = some u → strStartsWith u "data:" = true →
          ∃ img, decode_base64_image b64 imopen u = .ok img) →
        e.isUnsupportedClass) := by
  intro V B b64 imopen items model ef dim hoff
  obtain ⟨e, h400, herr⟩ := classifyItems_offending b64 imopen items hoff
  refine ⟨e, h400, ?_,
    fun hgood => classifyItems_err_class b64 imopen items e hgood herr⟩
  intro embedT embedI
  cases items with
  | nil =>
    obtain ⟨it, hmem, _⟩ := hoff
    simp at hmem
  | cons it rest =>
    simp only [List.map_cons] at herr ⊢
    rw [create_typed_eq, herr]

/-- Witness for C5 at a concrete request holding a valid image item whose
data url decodes, followed by one item of the unsupported kind video: the
good-decoder hypothesis is discharged by the actual decode of that url, so
the resulting error is established as a member of the unsupported-input
family. -/
theorem C5_unsupported_item_fails_400_witness :
    ∃ e, e.statusCode = 400 ∧
      (∀ (embedT : String → Unit) (embedI : PILImage → Unit),
        create_embeddings embedT embedI b64ok imopenw
          ⟨.list (([imgItemA, { type := "video" }] : List EmbeddingInput).map RawElem.obj),
            "m", "float", none⟩ = .error e) ∧
      e.isUnsupportedClass := by
  obtain ⟨e, h400, hall, hclass⟩ :=
    C5_unsupported_item_fails_400 Unit Nat b64ok imopenw [imgItemA, { type := "video" }]
      "m" "float" none
      ⟨{ type := "video" }, List.Mem.tail _ (List.Mem.head _), Or.inl ⟨by decide, by decide⟩⟩
  refine ⟨e, h400, hall, hclass ?_⟩
  intro it hit u hu hd
  rcases List.mem_cons.mp hit with h1 | h1
  · subst h1
    have hu2 : some "data:image/png;base64,AAAA" = some u := hu
    injection hu2 with hu2
    subst hu2
    exact ⟨{ width := 2, height := 3, mode := "RGB" }, rfl⟩
  · rcases List.mem_cons.mp h1 with h2 | h2
    · subst h2
      have hu2 : (none : Option String) = some u := hu
      cases hu2
    · simp at h2

/-- C8: a list whose first element is a string is routed whole to the text
path with no per-element recheck, so a typed object later in the list makes
the request fail downstream with the internal type error instead of being
classified; and every nonempty all-string list succeeds with one embedding
per input, indexed by position. -/
theorem C8_first_element_sniffing :
    ∀ (V B : Type) (embedT : String → V) (embedI : PILImage → V)
      (b64 : String → Option B) (imopen : B → Option PILImage)
      (model ef : String) (dim : Option Nat),
    (∀ (s : String) (rest : List RawElem), (∃ it, RawElem.obj it ∈ rest) →
      create_embeddings embedT embedI b64 imopen
        ⟨.list (.str s :: rest), model, ef, dim⟩ = .error .internalError)
    ∧ (∀ ss : List String, ss ≠ [] →
        ∃ resp, create_embeddings embedT embedI b64 imopen
            ⟨.list (ss.map RawElem.str), model, ef, dim⟩ = .ok resp ∧
          resp.data.length = ss.length ∧
          resp.data.map (fun d => d.index) = List.range ss.length) := by
  intro V B embedT embedI b64 imopen model ef dim
  constructor
  · rintro s rest ⟨it, hmem⟩
    rw [create_sniffed_eq]
    have hobj : PyTextVal.obj ∈ (RawElem.str s :: rest).map RawElem.asTextVal := by
      have := List.mem_map_of_mem RawElem.asTextVal
        (List.mem_cons_of_mem (RawElem.str s) hmem)
      simpa [RawElem.asTextVal] using this
    rw [process_text_input_err embedT _ (Or.inr hobj)]
  · intro ss hne
    cases ss with
    | nil => exact absurd rfl hne
    | cons s ss' =>
      have hastext : ((s :: ss').map RawElem.str).map RawElem.asTextVal =
          (s :: ss').map PyTextVal.str := by
        simp [List.map_map, Function.comp_def, RawElem.asTextVal]
      refine ⟨mkResponse model ((s :: ss').map fun t => embedT (normalize t))
        (((s :: ss').map wordCount).sum), ?_, ?_, ?_⟩
      · show create_embeddings embedT embedI b64 imopen
          ⟨.list (RawElem.str s :: ss'.map RawElem.str), model, ef, dim⟩ = _
        rw [create_sniffed_eq]
        have h1 : process_text_input embedT
            ((RawElem.str s :: ss'.map RawElem.str).map RawElem.asTextVal) =
            .ok ((s :: ss').map fun t => embedT (normalize t)) := by
          rw [show (RawElem.str s :: ss'.map RawElem.str) =
              (s :: ss').map RawElem.str from rfl, hastext, process_text_input_all_str]
        have h2 : sumSplitTokens (RawElem.str s :: ss'.map RawElem.str) =
            .ok (((s :: ss').map wordCount).sum) :=
          sumSplitTokens_all_str (s :: ss')
        rw [h1, h2]
      · simp [mkResponse, enumData_length]
      · simp [mkResponse, enumData_map_index, List.range_eq_range']

/-- Witness for C8: a mixed list with a string first element fails with the
internal type error, and a concrete one-string list succeeds with one
embedding at index 0. -/
theorem C8_first_element_sniffing_witness :
    (create_embeddings embTu embIu b64ok imopenw
        ⟨.list [.str "a", .obj { type := "text", text := some "b" }],
          "m", "float", none⟩ = .error .internalError)
    ∧ (∃ resp, create_embeddings embTu embIu b64ok imopenw
          ⟨.list ((["a"] : List String).map RawElem.str), "m", "float", none⟩ = .ok resp ∧
        resp.data.length = (["a"] : List String).length ∧
        resp.data.map (fun d => d.index) = List.range (["a"] : List String).length) :=
  ⟨(C8_first_element_sniffing Unit Nat embTu embIu b64ok imopenw "m" "float" none).1
      "a" [.obj { type := "text", text := some "b" }]
      ⟨{ type := "text", text := some "b" }, List.Mem.head _⟩,
   (C8_first_element_sniffing Unit Nat embTu embIu b64ok imopenw "m" "float" none).2
      ["a"] (by decide)⟩

/-- C2: every successful typed-item request assembles its response as the
text-batch vectors followed by the image-batch vectors, in the order the
classification loop collected the two sub-batches, and tags each embedding
with its zero-based position in that concatenation. -/
theorem C2_texts_then_images_concatenation :
    ∀ (V B : Type) (embedT : String → V) (embedI : PILImage → V)
      (b64 : String → Option B) (imopen : B → Option PILImage)
      (items : List EmbeddingInput) (model ef : String) (dim : Option Nat)
      (resp : EmbeddingResponse V),
    create_embeddings embedT embedI b64 imopen
        ⟨.list (items.map RawElem.obj), model, ef, dim⟩ = .ok resp →
    ∃ ts ims tk tvecs,
      classifyItems b64 imopen (items.map RawElem.obj) = .ok (ts, ims, tk) ∧
      process_text_input embedT ts = .ok tvecs ∧
      resp.data.map (fun d => d.embedding) = tvecs ++ process_image_input embedI ims ∧
      resp.data.map (fun d => d.index) = List.range resp.data.length := by
  intro V B embedT embedI b64 imopen items model ef dim resp h
  cases items with
  | nil =>
    rw [List.map_nil, create_empty_eq] at h
    exact Except.noConfusion h
  | cons it rest =>
    rw [List.map_cons, create_typed_eq] at h
    split at h
    · exact Except.noConfusion h
    · rename_i ts ims tk hcl
      split at h
      · exact Except.noConfusion h
      · rename_i tvecs htv
        injection h with h
        subst h
        refine ⟨ts, ims, tk, tvecs, ?_, htv, ?_, ?_⟩
        · rw [List.map_cons]
          exact hcl
        · simp [mkResponse, enumData_map_embedding]
        · simp [mkResponse, enumData_map_index, enumData_length, List.range_eq_range']

/-- Witness for C2 at a concrete mixed request of one text item and one
image item, with backends distinguishing texts from images. -/
theorem C2_texts_then_images_concatenation_witness :
    ∃ ts ims tk tvecs,
      classifyItems b64ok imopenw
          (([txtItemA, imgItemA] : List EmbeddingInput).map RawElem.obj) =
        .ok (ts, ims, tk) ∧
      process_text_input (fun t => t.length) ts = .ok tvecs ∧
      (mkResponse "m" [15, 1002] 2 : EmbeddingResponse Nat).data.map (fun d => d.embedding) =
        tvecs ++ process_image_input (fun img => 1000 + img.width) ims ∧
      (mkResponse "m" [15, 1002] 2 : EmbeddingResponse Nat).data.map (fun d => d.index) =
        List.range (mkResponse "m" [15, 1002] 2 : EmbeddingResponse Nat).data.length :=
  C2_texts_then_images_concatenation Nat Nat (fun t => t.length)
    (fun img => 1000 + img.width) b64ok imopenw [txtItemA, imgItemA]
    "m" "float" none (mkResponse "m" [15, 1002] 2) rfl

end NomicEmbed
